import Mathlib

/-!
Verification development for the `rust-ups` library (UPS binary patch format).

The definitions below are a shallow embedding of `src/lib/src/checksum.rs`,
`src/lib/src/varint.rs`, `src/lib/src/util.rs`, `src/lib/src/patch/mod.rs` and
`src/lib/src/patch/error.rs`.  Byte buffers are `List Nat` (bytes are `Nat`
values; in Rust they are `u8`, hence below `256`), `usize` arithmetic is `Nat`
with explicit `% 2 ^ 64` where the Rust code uses checked operations, and
fallible code returns `Option`/`Except`.  A Rust panic (out-of-bounds slice
index) is modelled as `none`.
-/

/-! ### Checksum (src/lib/src/checksum.rs)

`Checksum::from_bytes` delegates to the `crc32fast` crate, which computes the
standard CRC-32 (IEEE 802.3 polynomial, reflected, init and xor-out
`0xFFFFFFFF`).  That dependency is not part of the repository, so it is
modelled here bit-by-bit from that standard algorithm (the spec fixes it as
"CRC-32 (standard IEEE polynomial)").  A checksum value is a `u32`, kept as a
`Nat` below `2 ^ 32`. -/

def crc32_round (c : Nat) : Nat :=
  if c % 2 = 1 then (c / 2) ^^^ 0xEDB88320 else c / 2

/-- One byte of the CRC-32 computation: fold the byte into the low bits, then
eight shift-and-conditionally-xor rounds.  The `% 256` records that the Rust
input is a `u8`. -/
def crc32_byte (crc b : Nat) : Nat :=
  crc32_round (crc32_round (crc32_round (crc32_round
    (crc32_round (crc32_round (crc32_round (crc32_round (crc ^^^ (b % 256)))))))))

def Checksum.from_bytes (data : List Nat) : Nat :=
  (data.foldl crc32_byte 0xFFFFFFFF) ^^^ 0xFFFFFFFF

/-! ### Varint codec (src/lib/src/varint.rs) -/

/-- `u8::checked_shl` semantics on a `usize` target: `None` iff the shift
amount reaches the bit width; bits shifted past bit 63 are silently dropped
(`% 2 ^ 64`). -/
def varint.checked_shl (x shift : Nat) : Option Nat :=
  if shift ≥ 64 then none else some ((x <<< shift) % 2 ^ 64)

/-- `usize::checked_add`. -/
def varint.checked_add (a b : Nat) : Option Nat :=
  if a + b < 2 ^ 64 then some (a + b) else none

/-- `varint_add_shifted` from src/lib/src/varint.rs. -/
def varint.varint_add_shifted (current x shift : Nat) : Option Nat :=
  (varint.checked_shl x shift).bind (fun x2 => varint.checked_add current x2)

/-- The loop of `read_bytes`, with the accumulator and shift made explicit. -/
def varint.read_bytes_loop : List Nat → Nat → Nat → Option (Nat × List Nat)
  | [], _, _ => none
  | c :: rest, cur, shift =>
    if c &&& 0x80 ≠ 0 then
      (varint.varint_add_shifted cur (c &&& 0x7f) shift).map (fun v => (v, rest))
    else
      match varint.varint_add_shifted cur (c ||| 0x80) shift with
      | none => none
      | some v => varint.read_bytes_loop rest v (shift + 7)

/-- `read_bytes` from src/lib/src/varint.rs; the returned list models the
advanced `&mut &[u8]` cursor. -/
def varint.read_bytes (buf : List Nat) : Option (Nat × List Nat) :=
  varint.read_bytes_loop buf 0 0

/-- `write_bytes` from src/lib/src/varint.rs (the result of the appends). -/
def varint.write_bytes (v : Nat) : List Nat :=
  if v >>> 7 = 0 then [(v &&& 0x7f) ||| 0x80]
  else (v &&& 0x7f) :: varint.write_bytes (v >>> 7 - 1)
termination_by v
decreasing_by
  have h : v >>> 7 = v / 2 ^ 7 := Nat.shiftRight_eq_div_pow v 7
  simp only [h] at *
  omega

/-- Modelled from the spec (§4.1): the mathematical value accumulated by the
decoder over an unbounded integer, i.e. the decoding algorithm of `read_bytes`
without the target-width checked arithmetic.  Used to state that `read_bytes`
amounts to this value reduced by overflow. -/
def varint.read_bytes_spec : List Nat → Nat → Nat → Option (Nat × List Nat)
  | [], _, _ => none
  | c :: rest, cur, shift =>
    if c &&& 0x80 ≠ 0 then some (cur + (c &&& 0x7f) * 2 ^ shift, rest)
    else varint.read_bytes_spec rest (cur + (c ||| 0x80) * 2 ^ shift) (shift + 7)

/-! ### Patch data model (src/lib/src/patch/mod.rs) -/

/-- Diff block in a `Patch`. -/
structure Block where
  offset : Nat
  xor_data : List Nat
deriving DecidableEq, Repr

/-- UPS patch. -/
structure Patch where
  blocks : List Block
  src_size : Nat
  src_checksum : Nat
  dst_size : Nat
  dst_checksum : Nat
deriving DecidableEq, Repr

inductive PatchDirection where
  | Apply
  | Revert
deriving DecidableEq, Repr

structure DirectionMetadata where
  input_size : Nat
  input_checksum : Nat
  output_size : Nat
  output_checksum : Nat
deriving DecidableEq, Repr

def PatchDirection.metadata : PatchDirection → Patch → DirectionMetadata
  | .Apply, p =>
    { input_size := p.src_size, input_checksum := p.src_checksum,
      output_size := p.dst_size, output_checksum := p.dst_checksum }
  | .Revert, p =>
    { input_size := p.dst_size, input_checksum := p.dst_checksum,
      output_size := p.src_size, output_checksum := p.src_checksum }

/-! ### Error taxonomy (src/lib/src/patch/error.rs) -/

inductive MetadataMismatch where
  | Size (expected actual : Nat)
  | Checksum (expected actual : Nat)
deriving DecidableEq, Repr

inductive UpsPatchError where
  | SourceMetadataMismatch (m : MetadataMismatch)
  | DestMetadataMismatch (m : MetadataMismatch)
deriving DecidableEq, Repr

inductive UpsParseError where
  | FormatMismatch (msg : String)
  | PatchChecksumMismatch (parsed_patch : Patch) (expected actual : Nat)
deriving DecidableEq, Repr

/-- Errors from patching; `fst_error` keeps the list non-empty. -/
structure UpsPatchErrors where
  output : List Nat
  fst_error : UpsPatchError
  errors : List UpsPatchError
deriving DecidableEq, Repr

/-- `UpsPatchErrors::check_errors`: `errors.pop()` removes the LAST element. -/
def UpsPatchErrors.check_errors (output : List Nat) (errors : List UpsPatchError) :
    Except UpsPatchErrors (List Nat) :=
  match errors.getLast? with
  | some fst => .error { output := output, fst_error := fst, errors := errors.dropLast }
  | none => .ok output

instance {e a : Type} [DecidableEq e] [DecidableEq a] : DecidableEq (Except e a)
  | .error e1, .error e2 =>
    if h : e1 = e2 then .isTrue (by rw [h]) else .isFalse (by intro hx; cases hx; exact h rfl)
  | .error _, .ok _ => .isFalse (by intro hx; cases hx)
  | .ok _, .error _ => .isFalse (by intro hx; cases hx)
  | .ok a1, .ok a2 =>
    if h : a1 = a2 then .isTrue (by rw [h]) else .isFalse (by intro hx; cases hx; exact h rfl)

def MetadataMismatch.size (expected actual : Nat) : Option MetadataMismatch :=
  if expected = actual then none else some (.Size expected actual)

def MetadataMismatch.checksum (expected actual : Nat) : Option MetadataMismatch :=
  if expected = actual then none else some (.Checksum expected actual)

def PatchDirection.input_metadata_error : PatchDirection → MetadataMismatch → UpsPatchError
  | .Apply, m => .SourceMetadataMismatch m
  | .Revert, m => .DestMetadataMismatch m

def PatchDirection.output_metadata_error : PatchDirection → MetadataMismatch → UpsPatchError
  | .Apply, m => .DestMetadataMismatch m
  | .Revert, m => .SourceMetadataMismatch m

/-! ### Parsing (src/lib/src/patch/mod.rs) -/

def MAGIC : List Nat := [0x55, 0x50, 0x53, 0x31]

/-- `u32::from_le_bytes` on the first four list entries. -/
def u32_from_le (l : List Nat) : Nat :=
  l.getD 0 0 + 256 * l.getD 1 0 + 65536 * l.getD 2 0 + 16777216 * l.getD 3 0

/-- `u32::to_le_bytes`. -/
def u32_to_le (c : Nat) : List Nat :=
  [c % 256, c / 256 % 256, c / 65536 % 256, c / 16777216 % 256]

/-- `read_checksum` from src/lib/src/patch/mod.rs. -/
def read_checksum (buf : List Nat) : Except UpsParseError (Nat × List Nat) :=
  if buf.length < 4 then .error (.FormatMismatch ("Unexpected EOF while reading file"))
  else .ok (u32_from_le (buf.take 4), buf.drop 4)

/-- `memchr(0, l)`. -/
def memchr0 (l : List Nat) : Option Nat :=
  l.findIdx? (fun x => x == 0)

/-- The block-reading loop of `Patch::parse`: read an offset varint (silently
stopping on failure), then take the data up to and including the next zero
byte (or all remaining bytes). -/
def parseBlocks (body : List Nat) : List Block :=
  if body = [] then []
  else
    match hr : varint.read_bytes body with
    | none => []
    | some (offset, body1) =>
      match memchr0 body1 with
      | some i => Block.mk offset (body1.take (i + 1)) :: parseBlocks (body1.drop (i + 1))
      | none => [Block.mk offset body1]
termination_by body.length
decreasing_by
  have key : ∀ (l : List Nat) (cur sh v : Nat) (r : List Nat),
      varint.read_bytes_loop l cur sh = some (v, r) → r.length < l.length := by
    intro l
    induction l with
    | nil => intro cur sh v r h; simp [varint.read_bytes_loop] at h
    | cons c t ih =>
      intro cur sh v r h
      unfold varint.read_bytes_loop at h
      split at h
      · cases hadd : varint.varint_add_shifted cur (c &&& 0x7f) sh with
        | none => rw [hadd] at h; simp at h
        | some v2 =>
          rw [hadd] at h
          simp only [Option.map, Option.some.injEq, Prod.mk.injEq] at h
          obtain ⟨-, rfl⟩ := h
          have hg : t.length < t.length + 1 := by omega
          simpa using hg
      · split at h
        · exact absurd h (by simp)
        · have ht := ih _ _ _ _ h
          have hg : r.length < t.length + 1 := by omega
          simpa using hg
  have h1 : body1.length < body.length :=
    key body 0 0 offset body1 (by simpa [varint.read_bytes] using hr)
  have h2 : (body1.drop (i + 1)).length ≤ body1.length := by
    rw [List.length_drop]; omega
  have hg : (body1.drop (i + 1)).length < body.length := by omega
  exact hg

/-- `Patch::parse`.  The dynamic escaped-hex rendering in the preamble error
message is elided (a fixed message is used); no claim observes message text. -/
def Patch.parse (input : List Nat) : Except UpsParseError Patch :=
  if !(MAGIC.isPrefixOf input) then .error (.FormatMismatch ("invalid preamble"))
  else
    let actual_patch_checksum := Checksum.from_bytes (input.take (input.length - 4))
    let input1 := input.drop 4
    match varint.read_bytes input1 with
    | none => .error (.FormatMismatch ("error reading source file size"))
    | some (src_size, input2) =>
      match varint.read_bytes input2 with
      | none => .error (.FormatMismatch ("error reading dest file size"))
      | some (dst_size, input3) =>
        if input3.length < 12 then .error (.FormatMismatch ("failed to read checksums"))
        else
          let body := input3.take (input3.length - 12)
          let checksums := input3.drop (input3.length - 12)
          let blocks := parseBlocks body
          match read_checksum checksums with
          | .error e => .error e
          | .ok (src_checksum, checksums1) =>
            match read_checksum checksums1 with
            | .error e => .error e
            | .ok (dst_checksum, checksums2) =>
              match read_checksum checksums2 with
              | .error e => .error e
              | .ok (patch_checksum, _) =>
                let parsed_patch : Patch :=
                  { blocks := blocks, src_size := src_size, src_checksum := src_checksum,
                    dst_size := dst_size, dst_checksum := dst_checksum }
                if actual_patch_checksum ≠ patch_checksum then
                  .error (.PatchChecksumMismatch parsed_patch patch_checksum actual_patch_checksum)
                else .ok parsed_patch

/-! ### Serialization (src/lib/src/patch/mod.rs) -/

/-- The bytes one block contributes to `Patch::serialize`. -/
def blockBytes (b : Block) : List Nat :=
  varint.write_bytes b.offset ++ b.xor_data

/-- The bytes the serialize loop appends for a block list. -/
def blocksBytes : List Block → List Nat
  | [] => []
  | b :: bs => blockBytes b ++ blocksBytes bs

/-- `Patch::serialize`. -/
def Patch.serialize (p : Patch) : List Nat :=
  let bytes := MAGIC ++ varint.write_bytes p.src_size ++ varint.write_bytes p.dst_size
    ++ blocksBytes p.blocks ++ u32_to_le p.src_checksum ++ u32_to_le p.dst_checksum
  bytes ++ u32_to_le (Checksum.from_bytes bytes)

/-! ### Byte-diff engine (src/lib/src/util.rs) -/

/-- `SliceDiffs`: the list of maximal differing ranges, as produced by the
iterator, with `idx` the accumulated absolute index. -/
def sliceDiffs (idx : Nat) (a b : List Nat) : List (Nat × Nat) :=
  match h : (List.zip a b).findIdx? (fun p => p.1 != p.2) with
  | none => []
  | some relStart =>
    let a1 := a.drop relStart
    let b1 := b.drop relStart
    let relEnd := ((List.zip a1 b1).findIdx? (fun p => p.1 == p.2)).getD (min a1.length b1.length)
    (idx + relStart, idx + relStart + relEnd) ::
      sliceDiffs (idx + relStart + relEnd) (a1.drop relEnd) (b1.drop relEnd)
termination_by a.length
decreasing_by
  have hlt : relStart < (List.zip a b).length := (List.findIdx?_eq_some_iff_findIdx_eq.mp h).1
  have hab : relStart < a.length ∧ relStart < b.length := by
    simp only [List.length_zip, lt_min_iff] at hlt
    exact hlt
  have hR : 1 ≤ ((List.zip (List.drop relStart a) (List.drop relStart b)).findIdx?
      (fun p => p.1 == p.2)).getD
      ((List.drop relStart a).length ⊓ (List.drop relStart b).length) := by
    cases hin : (List.zip (List.drop relStart a) (List.drop relStart b)).findIdx?
        (fun p => p.1 == p.2) with
    | none =>
      simp only [Option.getD_none, List.length_drop]
      have h1 := hab.1
      have h2 := hab.2
      have hg : 1 ≤ (a.length - relStart) ⊓ (b.length - relStart) := by omega
      exact hg
    | some k =>
      simp only [Option.getD_some]
      rcases Nat.eq_zero_or_pos k with rfl | hk
      · exfalso
        have hp1 := List.findIdx?_of_eq_some h
        have hp2 := List.findIdx?_of_eq_some hin
        have hzz : List.zip (List.drop relStart a) (List.drop relStart b) =
            (List.zip a b).drop relStart := by
          simp [List.zip, List.drop_zipWith]
        rw [hzz, List.getElem?_drop, Nat.add_zero] at hp2
        cases hx : (List.zip a b)[relStart]? with
        | none => rw [hx] at hp1; simp at hp1
        | some x =>
          rw [hx] at hp1 hp2
          simp only [bne_iff_ne, ne_eq, beq_iff_eq] at hp1 hp2
          exact hp1 hp2
      · exact hk
  have hfin : ∀ R : Nat, 1 ≤ R → (List.drop R (List.drop relStart a)).length < a.length := by
    intro R hR2
    rw [List.length_drop, List.length_drop]
    have h1 := hab.1
    have hg : a.length - relStart - R < a.length := by omega
    exact hg
  exact hfin _ hR

/-- The for-loop of `Patch::diff` over the slice-diff ranges: the blocks built
so far plus the final `prev_end`. -/
def prefixBlocks (src dst : List Nat) : List (Nat × Nat) → Nat → List Block × Nat
  | [], prevEnd => ([], prevEnd)
  | r :: rs, prevEnd =>
    let xd := (List.zipWith (fun x y => x ^^^ y)
        ((src.drop r.1).take (r.2 - r.1)) ((dst.drop r.1).take (r.2 - r.1))) ++ [0]
    let rest := prefixBlocks src dst rs (r.2 + 1)
    (Block.mk (r.1 - prevEnd) xd :: rest.1, rest.2)

/-- `blocks.last_mut()` mutation. -/
def modifyLast (f : Block → Block) : List Block → List Block
  | [] => []
  | [b] => [f b]
  | b :: b2 :: rest => b :: modifyLast f (b2 :: rest)

/-- The while-loop of `Patch::diff` over the pending tail data. -/
def tailBlocks (pending : List Nat) : List Block :=
  match h : pending.findIdx? (fun x => x != 0) with
  | none => []
  | some off =>
    let pd := pending.drop off
    let splitPos := match memchr0 pd with
      | some i => i + 1
      | none => pd.length
    Block.mk off (pd.take splitPos) :: tailBlocks (pd.drop splitPos)
termination_by pending.length
decreasing_by
  rw [List.findIdx?_eq_some_iff_getElem] at h
  obtain ⟨hlt, -, -⟩ := h
  cases hm : memchr0 (List.drop off pending) with
  | none =>
    simp only [hm, List.length_drop]
    have hg : pending.length - off - (pending.length - off) < pending.length := by omega
    exact hg
  | some i =>
    simp only [hm, List.length_drop]
    have hg : pending.length - off - (i + 1) < pending.length := by omega
    exact hg

/-- `Patch::diff`.  The `assert!` that prefix xor-data contains no zero (which
never fires: a differing range has no position where the bytes agree) is
elided. -/
def Patch.diff (src dst : List Nat) : Patch :=
  let pb := prefixBlocks src dst (sliceDiffs 0 src dst) 0
  let blocks1 := pb.1
  let prevEnd := pb.2
  let minLen := if src.length < dst.length then src.length else dst.length
  let maxSlice := if src.length < dst.length then dst else src
  let pending0 := maxSlice.drop minLen
  let splitPos := (memchr0 pending0).getD pending0.length
  let lastBlockData := pending0.take splitPos
  let pending1 := (pending0.drop splitPos).tail
  let blocks2 :=
    if prevEnd = minLen + 1 then
      modifyLast (fun b =>
        { b with xor_data := b.xor_data.dropLast ++ lastBlockData ++ [0] }) blocks1
    else if lastBlockData ≠ [] then
      blocks1 ++ [Block.mk (minLen - prevEnd) (lastBlockData ++ [0])]
    else blocks1
  let blocks3 := blocks2 ++ tailBlocks pending1
  let blocks4 :=
    match blocks3.getLast? with
    | some b =>
      if b.xor_data.getLast? ≠ some 0 then
        modifyLast (fun b => { b with xor_data := b.xor_data ++ [0] }) blocks3
      else blocks3
    | none => blocks3
  { blocks := blocks4, src_size := src.length, src_checksum := Checksum.from_bytes src,
    dst_size := dst.length, dst_checksum := Checksum.from_bytes dst }

/-! ### Apply / revert (src/lib/src/patch/mod.rs) -/

/-- The inner xor loop: `for (out_byte, patch_byte) in output_ptr.iter_mut().zip(&block.xor_data)`. -/
def xorInto (buf xd : List Nat) : List Nat :=
  List.zipWith (fun x y => x ^^^ y) buf xd ++ buf.drop xd.length

/-- The block-application loop of `Patch::patch`; `buf` is the current
`output_ptr` window, the modified whole window is returned. -/
def applyBlocks : List Block → List Nat → List Nat
  | [], buf => buf
  | b :: rest, buf =>
    if buf.length ≤ b.offset then buf
    else
      let w := xorInto (buf.drop b.offset) b.xor_data
      if w.length ≤ b.xor_data.length then buf.take b.offset ++ w
      else buf.take b.offset ++ w.take b.xor_data.length ++
        applyBlocks rest (w.drop b.xor_data.length)

/-- `Patch::patch`.  `none` models the panic of
`output[..input_copy_len].copy_from_slice(&input[..input_copy_len])` when the
input slice is shorter than `input_copy_len`. -/
def Patch.patch (p : Patch) (d : PatchDirection) (input : List Nat) :
    Option (Except UpsPatchErrors (List Nat)) :=
  let md := d.metadata p
  let errors1 : List UpsPatchError :=
    match MetadataMismatch.size md.input_size input.length with
    | some m => [d.input_metadata_error m]
    | none => []
  let input_checksum := Checksum.from_bytes input
  let errors2 : List UpsPatchError :=
    match MetadataMismatch.checksum md.input_checksum input_checksum with
    | some m => [d.input_metadata_error m]
    | none => []
  let input_copy_len := min md.output_size md.input_size
  if input.length < input_copy_len then none
  else
    let output0 := input.take input_copy_len ++ (List.replicate md.output_size 0).drop input_copy_len
    let output := applyBlocks p.blocks output0
    let output_checksum := Checksum.from_bytes output
    let errors3 : List UpsPatchError :=
      match MetadataMismatch.checksum md.output_checksum output_checksum with
      | some m => [d.output_metadata_error m]
      | none => []
    some (UpsPatchErrors.check_errors output (errors1 ++ errors2 ++ errors3))

def Patch.apply (p : Patch) (src : List Nat) : Option (Except UpsPatchErrors (List Nat)) :=
  p.patch .Apply src

def Patch.revert (p : Patch) (dst : List Nat) : Option (Except UpsPatchErrors (List Nat)) :=
  p.patch .Revert dst

/-- The output buffer `Patch::patch` computes (spec §4.6 steps 3-4): an
`output_size` zero-filled buffer seeded with `min(input_size, output_size)`
input bytes, with all blocks applied.  Named here to state how both the `Ok`
and the `Err` payload relate to it. -/
def patchOutput (p : Patch) (d : PatchDirection) (input : List Nat) : List Nat :=
  let md := d.metadata p
  let c := min md.output_size md.input_size
  applyBlocks p.blocks (input.take c ++ List.replicate (md.output_size - c) 0)

/-- Modelled from the spec (§4.6): the list of validation failures of a patch
application, in evaluation order (input size, input checksum, output
checksum).  Used to state which errors `Patch::patch` reports. -/
def expectedErrors (p : Patch) (d : PatchDirection) (input : List Nat) : List UpsPatchError :=
  let md := d.metadata p
  (if md.input_size = input.length then []
   else [d.input_metadata_error (.Size md.input_size input.length)])
  ++ (if md.input_checksum = Checksum.from_bytes input then []
   else [d.input_metadata_error (.Checksum md.input_checksum (Checksum.from_bytes input))])
  ++ (if md.output_checksum = Checksum.from_bytes (patchOutput p d input) then []
   else [d.output_metadata_error
      (.Checksum md.output_checksum (Checksum.from_bytes (patchOutput p d input)))])

/-! ## Theorems -/

/-! ### Small byte-level facts -/

theorem lor128_small : ∀ m : Fin 128, ((m : Nat) ||| 128) = (m : Nat) + 128 := by decide

theorem and128_small : ∀ m : Fin 128, ((m : Nat) &&& 128) = 0 := by decide

theorem orand128_small : ∀ m : Fin 128, (((m : Nat) ||| 128) &&& 128) = 128 := by decide

theorem orand127_small : ∀ m : Fin 128, (((m : Nat) ||| 128) &&& 127) = (m : Nat) := by decide

theorem byte_and127 (v : Nat) : v &&& 127 = v % 128 := by
  have h := Nat.and_pow_two_sub_one_eq_mod v 7
  norm_num at h
  exact h

theorem byte_or128 {m : Nat} (h : m < 128) : m ||| 128 = m + 128 := lor128_small ⟨m, h⟩

theorem byte_and128 {m : Nat} (h : m < 128) : m &&& 128 = 0 := and128_small ⟨m, h⟩

theorem byte_orand128 {m : Nat} (h : m < 128) : (m ||| 128) &&& 128 = 128 :=
  orand128_small ⟨m, h⟩

theorem byte_orand127 {m : Nat} (h : m < 128) : (m ||| 128) &&& 127 = m :=
  orand127_small ⟨m, h⟩

/-! ### Varint codec lemmas -/

theorem varint.shiftRight7 (v : Nat) : v >>> 7 = v / 128 := by
  rw [Nat.shiftRight_eq_div_pow]

theorem varint.varint_add_shifted_eq {cur x shift : Nat} (hs : shift < 64)
    (hb : cur + x * 2 ^ shift < 2 ^ 64) :
    varint.varint_add_shifted cur x shift = some (cur + x * 2 ^ shift) := by
  have hx : x * 2 ^ shift < 2 ^ 64 := by omega
  unfold varint.varint_add_shifted varint.checked_shl varint.checked_add
  rw [if_neg (by omega), Nat.shiftLeft_eq, Nat.mod_eq_of_lt hx]
  simp only [Option.some_bind]
  rw [if_pos hb]

theorem varint.read_write_loop (v : Nat) : ∀ (cur shift : Nat), shift < 64 →
    cur + v * 2 ^ shift < 2 ^ 64 →
    ∀ rest, varint.read_bytes_loop (varint.write_bytes v ++ rest) cur shift
      = some (cur + v * 2 ^ shift, rest) := by
  induction v using Nat.strong_induction_on with
  | _ v ih =>
    intro cur shift hs hb rest
    rw [varint.write_bytes]
    by_cases h0 : v >>> 7 = 0
    · rw [if_pos h0]
      have hv : v < 128 := by
        rw [varint.shiftRight7] at h0
        omega
      have hand : v &&& 127 = v := by
        rw [byte_and127]
        exact Nat.mod_eq_of_lt hv
      rw [hand]
      simp only [List.cons_append, List.nil_append, varint.read_bytes_loop]
      rw [if_pos (by rw [byte_orand128 hv]; omega)]
      rw [byte_orand127 hv]
      rw [varint.varint_add_shifted_eq hs hb]
      rfl
    · rw [if_neg h0]
      have hv : 128 ≤ v := by
        rw [varint.shiftRight7] at h0
        omega
      have hmod : v % 128 < 128 := Nat.mod_lt _ (by omega)
      simp only [List.cons_append, varint.read_bytes_loop, byte_and127]
      rw [if_neg (by rw [byte_and128 hmod]; omega)]
      rw [byte_or128 hmod]
      have hle : v % 128 + 128 ≤ v := by omega
      have hstep : cur + (v % 128 + 128) * 2 ^ shift < 2 ^ 64 := by
        have hmul : (v % 128 + 128) * 2 ^ shift ≤ v * 2 ^ shift :=
          Nat.mul_le_mul_right _ hle
        omega
      rw [varint.varint_add_shifted_eq hs hstep]
      have hs7 : shift + 7 < 64 := by
        have hpow : 2 ^ (shift + 7) ≤ v * 2 ^ shift := by
          rw [pow_add]
          calc 2 ^ shift * 2 ^ 7 = 2 ^ 7 * 2 ^ shift := by ring
          _ ≤ v * 2 ^ shift := Nat.mul_le_mul_right _ (by norm_num; omega)
        have hlt : 2 ^ (shift + 7) < 2 ^ 64 := by omega
        exact (Nat.pow_lt_pow_iff_right (by norm_num)).mp hlt
      have hrec : v >>> 7 - 1 < v := by
        rw [varint.shiftRight7]
        omega
      have hbound : cur + (v % 128 + 128) * 2 ^ shift + (v >>> 7 - 1) * 2 ^ (shift + 7)
          = cur + v * 2 ^ shift := by
        rw [varint.shiftRight7]
        obtain ⟨q1, hq⟩ : ∃ q1, v / 128 = q1 + 1 := ⟨v / 128 - 1, by omega⟩
        have hsum : v % 128 + 128 * (q1 + 1) = v := by
          have := Nat.mod_add_div v 128
          omega
        rw [hq, Nat.add_sub_cancel, pow_add]
        have hdist : cur + (v % 128 + 128) * 2 ^ shift + q1 * (2 ^ shift * 2 ^ 7)
            = cur + (v % 128 + 128 * (q1 + 1)) * 2 ^ shift := by ring
        rw [hdist, hsum]
      have hlt2 : cur + (v % 128 + 128) * 2 ^ shift + (v >>> 7 - 1) * 2 ^ (shift + 7)
          < 2 ^ 64 := by rw [hbound]; exact hb
      exact (ih _ hrec _ _ hs7 hlt2 rest).trans (by rw [hbound])

theorem varint.read_write (v : Nat) (hv : v < 2 ^ 64) (rest : List Nat) :
    varint.read_bytes (varint.write_bytes v ++ rest) = some (v, rest) := by
  have h := varint.read_write_loop v 0 0 (by norm_num) (by simpa using hv) rest
  simpa [varint.read_bytes] using h

theorem varint.write_ne_nil (v : Nat) : varint.write_bytes v ≠ [] := by
  rw [varint.write_bytes]
  split <;> simp

/-- C6: for every `usize` value `v` (i.e. `v < 2 ^ 64`), decoding the bytes
produced by `write_bytes v` with `read_bytes` succeeds, returns `v`, and
consumes the whole encoding. -/
theorem varint_roundtrip (v : Nat) (hv : v < 2 ^ 64) :
    varint.read_bytes (varint.write_bytes v) = some (v, []) := by
  have h := varint.read_write v hv []
  simpa using h

theorem varint_roundtrip_witness :
    300 < 2 ^ 64 ∧ varint.read_bytes (varint.write_bytes 300) = some (300, []) :=
  ⟨by norm_num, varint_roundtrip 300 (by norm_num)⟩

/-- C7: at the input of nine `0x00` bytes followed by the terminator `0x82`,
the final accumulation step shifts the payload `2` by 63 bits; the
mathematical value (given by the decoding algorithm over unbounded integers,
`read_bytes_spec`) exceeds `usize::MAX` by exactly `2 ^ 64`, yet `read_bytes`
returns `some` of the wrapped value instead of failing: `checked_shl` only
rejects shift amounts `≥ 64` and silently drops the bits shifted past bit 63,
so the decoder wraps on accumulator overflow rather than returning `None`. -/
theorem varint_wraps_on_overflow :
    varint.read_bytes [0, 0, 0, 0, 0, 0, 0, 0, 0, 0x82] = some (9295997013522923648, []) ∧
    varint.read_bytes_spec [0, 0, 0, 0, 0, 0, 0, 0, 0, 0x82] 0 0
      = some (9295997013522923648 + 2 ^ 64, []) := by
  constructor
  · decide
  · decide

/-! ### Case equations for the well-founded recursions -/

theorem tailBlocks_of_none {pending : List Nat}
    (h : pending.findIdx? (fun x => x != 0) = none) : tailBlocks pending = [] := by
  rw [tailBlocks.eq_def]
  split
  · rfl
  · next off heq => rw [h] at heq; cases heq

theorem tailBlocks_of_some {pending : List Nat} {off : Nat}
    (h : pending.findIdx? (fun x => x != 0) = some off) :
    tailBlocks pending =
      Block.mk off ((pending.drop off).take (match memchr0 (pending.drop off) with
        | some i => i + 1
        | none => (pending.drop off).length)) ::
      tailBlocks ((pending.drop off).drop (match memchr0 (pending.drop off) with
        | some i => i + 1
        | none => (pending.drop off).length)) := by
  rw [tailBlocks.eq_def]
  split
  · next heq => rw [h] at heq; cases heq
  · next off2 heq =>
    rw [h] at heq
    cases heq
    rfl

theorem sliceDiffs_of_none {idx : Nat} {a b : List Nat}
    (h : (List.zip a b).findIdx? (fun p => p.1 != p.2) = none) : sliceDiffs idx a b = [] := by
  rw [sliceDiffs.eq_def]
  split
  · rfl
  · next relStart heq => rw [h] at heq; cases heq

theorem sliceDiffs_of_some {idx : Nat} {a b : List Nat} {relStart : Nat}
    (h : (List.zip a b).findIdx? (fun p => p.1 != p.2) = some relStart) :
    sliceDiffs idx a b =
      (idx + relStart, idx + relStart +
        (((List.zip (a.drop relStart) (b.drop relStart)).findIdx? (fun p => p.1 == p.2)).getD
          (min (a.drop relStart).length (b.drop relStart).length))) ::
      sliceDiffs (idx + relStart +
        (((List.zip (a.drop relStart) (b.drop relStart)).findIdx? (fun p => p.1 == p.2)).getD
          (min (a.drop relStart).length (b.drop relStart).length)))
        ((a.drop relStart).drop
          (((List.zip (a.drop relStart) (b.drop relStart)).findIdx? (fun p => p.1 == p.2)).getD
            (min (a.drop relStart).length (b.drop relStart).length)))
        ((b.drop relStart).drop
          (((List.zip (a.drop relStart) (b.drop relStart)).findIdx? (fun p => p.1 == p.2)).getD
            (min (a.drop relStart).length (b.drop relStart).length))) := by
  rw [sliceDiffs.eq_def]
  split
  · next heq => rw [h] at heq; cases heq
  · next relStart2 heq =>
    rw [h] at heq
    cases heq
    rfl

theorem parseBlocks_nil : parseBlocks [] = [] := by
  rw [parseBlocks.eq_def]
  rfl

theorem parseBlocks_of_read_none {body : List Nat} (hne : body ≠ [])
    (hr2 : varint.read_bytes body = none) : parseBlocks body = [] := by
  rw [parseBlocks.eq_def, if_neg hne]
  split
  · rfl
  · next offset body1 heq => rw [hr2] at heq; cases heq

theorem parseBlocks_of_read_some {body : List Nat} {offset : Nat} {body1 : List Nat}
    (hne : body ≠ []) (hr2 : varint.read_bytes body = some (offset, body1)) :
    parseBlocks body =
      match memchr0 body1 with
      | some i => Block.mk offset (body1.take (i + 1)) :: parseBlocks (body1.drop (i + 1))
      | none => [Block.mk offset body1] := by
  rw [parseBlocks.eq_def, if_neg hne]
  split
  · next heq => rw [hr2] at heq; cases heq
  · next offset2 body2 heq =>
    rw [hr2] at heq
    cases heq
    rfl

/-! ### Concrete evaluations of diff / patch / parse -/

theorem diff_nil_05 : Patch.diff [] [0, 5]
    = ⟨[⟨0, [5, 0]⟩], 0, Checksum.from_bytes [], 2, Checksum.from_bytes [0, 5]⟩ := by
  have hs : sliceDiffs 0 [] [0, 5] = [] := sliceDiffs_of_none (by rfl)
  simp [Patch.diff, hs, prefixBlocks, memchr0, modifyLast, tailBlocks_of_some,
    tailBlocks_of_none]

/-- C1: the code contradicts its own property test `test_diff_apply_results_in_dst`.
At `src = []`, `dst = [0x00, 0x05]` the tail of `dst` begins with a zero byte, so
`last_block_data` is empty and no block is pushed for the gap; the while-loop
block `{offset: 0, xor_data: [0x05, 0x00]}` is emitted as if the cursor had
already passed the zero byte.  Applying the patch XORs `0x05` at position 0
instead of position 1: the output is `[0x05, 0x00]`, the destination checksum
check fails, and `apply` returns the error (carrying that output) instead of
`Ok [0x00, 0x05])`. -/
theorem diff_apply_not_inverse :
    (Patch.diff [] [0, 5]).apply []
      = some (.error
          { output := [5, 0],
            fst_error := .DestMetadataMismatch
              (.Checksum (Checksum.from_bytes [0, 5]) (Checksum.from_bytes [5, 0])),
            errors := [] }) ∧
    (Patch.diff [] [0, 5]).apply [] ≠ some (.ok [0, 5]) := by
  rw [Patch.apply, diff_nil_05]
  constructor
  · decide
  · decide

/-- C10: `diff([], [0x41, 0x00, 0x42])` splits at the embedded zero byte into
exactly the two blocks `{offset: 0, xor_data: [0x41, 0x00]}` and
`{offset: 0, xor_data: [0x42, 0x00]}`, in that order. -/
theorem diff_splits_on_embedded_zero :
    (Patch.diff [] [0x41, 0x00, 0x42]).blocks
      = [⟨0, [0x41, 0x00]⟩, ⟨0, [0x42, 0x00]⟩] := by
  have hs : sliceDiffs 0 [] [0x41, 0x00, 0x42] = [] := sliceDiffs_of_none (by rfl)
  simp [Patch.diff, hs, prefixBlocks, memchr0, modifyLast, tailBlocks_of_some,
    tailBlocks_of_none]

/-- C5 counterexample: `diff([], [0x00])` produces an empty block list although
`src ≠ dst` (a tail of zero bytes needs no blocks, as the output buffer is
zero-seeded), refuting "`diff(src, dst).blocks` is empty iff `src == dst`". -/
theorem diff_blocks_empty_src_ne_dst :
    (Patch.diff [] [0]).blocks = [] ∧ ([] : List Nat) ≠ [0] := by
  refine ⟨?_, by decide⟩
  have hs : sliceDiffs 0 [] [0] = [] := sliceDiffs_of_none (by rfl)
  simp [Patch.diff, hs, prefixBlocks, memchr0, modifyLast, tailBlocks_of_none]

/-- C3 counterexample: for a patch with `src_size = dst_size = 1` and the empty
input buffer, `Patch::patch` panics (the slice index
`&input[..input_copy_len]` is out of bounds, modelled as `none`) instead of
returning a size-mismatch `Err`. -/
theorem patch_panics_on_short_input :
    (⟨[], 1, 0, 1, 0⟩ : Patch).patch .Apply [] = none := by decide

/-- C4 counterexample: for a patch with `src_size = dst_size = 2` and the
one-byte input `[0]`, the input-size validation fails, but `Patch::patch`
returns no `Err` at all: it panics on the out-of-bounds copy (modelled as
`none`). -/
theorem patch_panics_with_failing_validation :
    (⟨[], 2, 0, 2, 0⟩ : Patch).patch .Apply [0] = none ∧
    expectedErrors ⟨[], 2, 0, 2, 0⟩ .Apply [0] ≠ [] := by
  constructor
  · decide
  · decide

theorem write_bytes_zero : varint.write_bytes 0 = [128] := by
  rw [varint.write_bytes]
  decide

theorem parseBlocks_128_128 : parseBlocks [128, 128] = [⟨0, [128]⟩] := by
  rw [parseBlocks_of_read_some (by decide) (show varint.read_bytes [128, 128]
    = some (0, [128]) by rfl)]
  rfl

/-! ### Checksum and u32 lemmas -/

theorem crc32_round_lt {c : Nat} (h : c < 2 ^ 32) : crc32_round c < 2 ^ 32 := by
  unfold crc32_round
  split
  · exact Nat.xor_lt_two_pow (by omega) (by norm_num)
  · omega

theorem crc32_byte_lt {c : Nat} (h : c < 2 ^ 32) (b : Nat) : crc32_byte c b < 2 ^ 32 := by
  unfold crc32_byte
  have h0 : c ^^^ (b % 256) < 2 ^ 32 :=
    Nat.xor_lt_two_pow h (by have := Nat.mod_lt b (y := 256) (by norm_num); omega)
  exact crc32_round_lt (crc32_round_lt (crc32_round_lt (crc32_round_lt
    (crc32_round_lt (crc32_round_lt (crc32_round_lt (crc32_round_lt h0)))))))

theorem foldl_crc32_lt : ∀ (l : List Nat) (acc : Nat), acc < 2 ^ 32 →
    l.foldl crc32_byte acc < 2 ^ 32 := by
  intro l
  induction l with
  | nil => intro acc h; simpa using h
  | cons b t ih =>
    intro acc h
    simpa [List.foldl_cons] using ih _ (crc32_byte_lt h b)

theorem from_bytes_lt (data : List Nat) : Checksum.from_bytes data < 2 ^ 32 := by
  unfold Checksum.from_bytes
  exact Nat.xor_lt_two_pow (foldl_crc32_lt _ _ (by norm_num)) (by norm_num)

theorem u32_to_le_length (c : Nat) : (u32_to_le c).length = 4 := rfl

theorem u32_roundtrip {c : Nat} (h : c < 2 ^ 32) : u32_from_le (u32_to_le c) = c := by
  simp only [u32_from_le, u32_to_le, List.getD_cons_zero, List.getD_cons_succ]
  omega

theorem read_checksum_of_len {cks : List Nat} (h : 4 ≤ cks.length) :
    read_checksum cks = .ok (u32_from_le (cks.take 4), cks.drop 4) := by
  unfold read_checksum
  rw [if_neg (by omega)]

/-! ### Parse on structured input -/

theorem magic_prefixOf (X : List Nat) : MAGIC.isPrefixOf (MAGIC ++ X) = true := by
  simp [MAGIC, List.isPrefixOf]

theorem parse_structured {pre1 pre2 : List Nat} {ss ds : Nat}
    (h1 : ∀ ys, varint.read_bytes (pre1 ++ ys) = some (ss, ys))
    (h2 : ∀ ys, varint.read_bytes (pre2 ++ ys) = some (ds, ys))
    (body cks : List Nat) (hcks : cks.length = 12) :
    Patch.parse (MAGIC ++ (pre1 ++ (pre2 ++ (body ++ cks)))) =
      if Checksum.from_bytes ((MAGIC ++ (pre1 ++ (pre2 ++ (body ++ cks)))).take
          ((MAGIC ++ (pre1 ++ (pre2 ++ (body ++ cks)))).length - 4))
        ≠ u32_from_le (((cks.drop 4).drop 4).take 4) then
        .error (.PatchChecksumMismatch
          ⟨parseBlocks body, ss, u32_from_le (cks.take 4), ds, u32_from_le ((cks.drop 4).take 4)⟩
          (u32_from_le (((cks.drop 4).drop 4).take 4))
          (Checksum.from_bytes ((MAGIC ++ (pre1 ++ (pre2 ++ (body ++ cks)))).take
            ((MAGIC ++ (pre1 ++ (pre2 ++ (body ++ cks)))).length - 4))))
      else
        .ok ⟨parseBlocks body, ss, u32_from_le (cks.take 4), ds,
          u32_from_le ((cks.drop 4).take 4)⟩ := by
  have hdrop4 : (MAGIC ++ (pre1 ++ (pre2 ++ (body ++ cks)))).drop 4
      = pre1 ++ (pre2 ++ (body ++ cks)) := List.drop_left' rfl
  have hlen : (body ++ cks).length = body.length + 12 := by
    simp [List.length_append, hcks]
  have hbody : (body ++ cks).take ((body ++ cks).length - 12) = body := by
    rw [hlen]
    exact List.take_left' (by omega)
  have hcks2 : (body ++ cks).drop ((body ++ cks).length - 12) = cks := by
    rw [hlen]
    exact List.drop_left' (by omega)
  have hlen12 : ¬ ((body ++ cks).length < 12) := by
    rw [hlen]
    omega
  have hc1 : read_checksum cks = .ok (u32_from_le (cks.take 4), cks.drop 4) :=
    read_checksum_of_len (by omega)
  have hc2 : read_checksum (cks.drop 4)
      = .ok (u32_from_le ((cks.drop 4).take 4), (cks.drop 4).drop 4) :=
    read_checksum_of_len (by rw [List.length_drop]; omega)
  have hc3 : read_checksum ((cks.drop 4).drop 4)
      = .ok (u32_from_le (((cks.drop 4).drop 4).take 4), ((cks.drop 4).drop 4).drop 4) :=
    read_checksum_of_len (by rw [List.length_drop, List.length_drop]; omega)
  simp only [Patch.parse, magic_prefixOf, Bool.not_true, Bool.false_eq_true, if_false,
    hdrop4, h1, h2, hbody, hcks2, if_neg hlen12, hc1, hc2, hc3]

theorem parse_magic_sizes {ss ds : Nat} (hss : ss < 2 ^ 64) (hds : ds < 2 ^ 64)
    (body cks : List Nat) (hcks : cks.length = 12) :
    Patch.parse (MAGIC ++ (varint.write_bytes ss ++ (varint.write_bytes ds ++ (body ++ cks)))) =
      if Checksum.from_bytes
          ((MAGIC ++ (varint.write_bytes ss ++ (varint.write_bytes ds ++ (body ++ cks)))).take
            ((MAGIC ++ (varint.write_bytes ss
              ++ (varint.write_bytes ds ++ (body ++ cks)))).length - 4))
        ≠ u32_from_le (((cks.drop 4).drop 4).take 4) then
        .error (.PatchChecksumMismatch
          ⟨parseBlocks body, ss, u32_from_le (cks.take 4), ds, u32_from_le ((cks.drop 4).take 4)⟩
          (u32_from_le (((cks.drop 4).drop 4).take 4))
          (Checksum.from_bytes
            ((MAGIC ++ (varint.write_bytes ss ++ (varint.write_bytes ds ++ (body ++ cks)))).take
              ((MAGIC ++ (varint.write_bytes ss
                ++ (varint.write_bytes ds ++ (body ++ cks)))).length - 4))))
      else
        .ok ⟨parseBlocks body, ss, u32_from_le (cks.take 4), ds,
          u32_from_le ((cks.drop 4).take 4)⟩ :=
  parse_structured (fun ys => varint.read_write ss hss ys)
    (fun ys => varint.read_write ds hds ys) body cks hcks

/-- C8 (amended): once the magic is correct, both size varints are valid, and
at least 12 bytes remain, `Patch::parse` never returns a format-mismatch,
whatever the block stream contains: a truncated offset varint merely ends the
block-reading loop (`None => break` in the source), and the result is `Ok` or
a patch-checksum mismatch. -/
theorem parse_no_format_mismatch_after_sizes {ss ds : Nat} (hss : ss < 2 ^ 64)
    (hds : ds < 2 ^ 64) (body cks : List Nat) (hcks : cks.length = 12) :
    (∃ q, Patch.parse (MAGIC ++ (varint.write_bytes ss ++ (varint.write_bytes ds
        ++ (body ++ cks)))) = .ok q) ∨
    (∃ q expct act, Patch.parse (MAGIC ++ (varint.write_bytes ss ++ (varint.write_bytes ds
        ++ (body ++ cks)))) = .error (.PatchChecksumMismatch q expct act)) := by
  rw [parse_magic_sizes hss hds body cks hcks]
  split
  · right
    exact ⟨_, _, _, rfl⟩
  · left
    exact ⟨_, rfl⟩

theorem parse_no_format_mismatch_after_sizes_witness :
    (0 : Nat) < 2 ^ 64 ∧ ([0, 0, 0, 0, 0, 0, 0, 0, 0, 0, 0, 0] : List Nat).length = 12 ∧
    ((∃ q, Patch.parse (MAGIC ++ (varint.write_bytes 0 ++ (varint.write_bytes 0
        ++ ([1] ++ [0, 0, 0, 0, 0, 0, 0, 0, 0, 0, 0, 0])))) = .ok q) ∨
     (∃ q expct act, Patch.parse (MAGIC ++ (varint.write_bytes 0 ++ (varint.write_bytes 0
        ++ ([1] ++ [0, 0, 0, 0, 0, 0, 0, 0, 0, 0, 0, 0])))) =
          .error (.PatchChecksumMismatch q expct act))) :=
  ⟨by norm_num, rfl,
    parse_no_format_mismatch_after_sizes (by norm_num) (by norm_num) [1] _ rfl⟩

set_option maxRecDepth 40000 in
/-- C8 counterexample: a concrete input with correct magic (`UPS1`), valid size
varints (`0x80`, `0x80`), 12 trailing checksum bytes, and a body `[0x01]` that
is a truncated offset varint (a non-zero byte remains with no high-bit byte
before the body ends).  The claim says `parse` fails with a format-mismatch;
instead the block loop silently breaks and, the patch checksum matching,
`parse` returns `Ok` with an empty block list. -/
theorem parse_ok_on_truncated_offset_varint :
    Patch.parse [0x55, 0x50, 0x53, 0x31, 0x80, 0x80, 1,
      0, 0, 0, 0, 0, 0, 0, 0, 202, 155, 149, 240] = .ok ⟨[], 0, 0, 0, 0⟩ := by
  have hI : ([0x55, 0x50, 0x53, 0x31, 0x80, 0x80, 1,
      0, 0, 0, 0, 0, 0, 0, 0, 202, 155, 149, 240] : List Nat)
      = MAGIC ++ (varint.write_bytes 0 ++ (varint.write_bytes 0
        ++ ([1] ++ [0, 0, 0, 0, 0, 0, 0, 0, 202, 155, 149, 240]))) := by
    rw [write_bytes_zero]
    rfl
  rw [hI, parse_magic_sizes (by norm_num) (by norm_num) [1]
      [0, 0, 0, 0, 0, 0, 0, 0, 202, 155, 149, 240] rfl,
    parseBlocks_of_read_none (by decide) (show varint.read_bytes [1] = none from rfl),
    write_bytes_zero]
  decide

theorem parseBlocks_two_empty : blocksBytes [⟨0, []⟩, ⟨0, []⟩] = [128, 128] := by
  simp [blocksBytes, blockBytes, write_bytes_zero]

set_option maxRecDepth 40000 in
/-- C2 counterexample: the `Patch` with two blocks whose `xor_data` is empty
serializes to the block stream `[0x80, 0x80]`; parsing reads the first `0x80`
as offset `0` and, finding no zero byte, takes the remaining `[0x80]` as that
block's data, yielding the single block `{offset: 0, xor_data: [0x80]}` — so
`parse(serialize(p))` succeeds (the patch checksum matches) but returns a
different `Patch`. -/
theorem serialize_parse_not_id :
    Patch.parse (Patch.serialize ⟨[⟨0, []⟩, ⟨0, []⟩], 0, 0, 0, 0⟩)
      ≠ .ok ⟨[⟨0, []⟩, ⟨0, []⟩], 0, 0, 0, 0⟩ := by
  have hser : Patch.serialize ⟨[⟨0, []⟩, ⟨0, []⟩], 0, 0, 0, 0⟩
      = [85, 80, 83, 49, 128, 128, 128, 128, 0, 0, 0, 0, 0, 0, 0, 0,
         200, 51, 209, 198] := by
    simp only [Patch.serialize, parseBlocks_two_empty, write_bytes_zero, MAGIC]
    decide
  have hI : ([85, 80, 83, 49, 128, 128, 128, 128, 0, 0, 0, 0, 0, 0, 0, 0,
      200, 51, 209, 198] : List Nat)
      = MAGIC ++ (varint.write_bytes 0 ++ (varint.write_bytes 0
        ++ ([128, 128] ++ [0, 0, 0, 0, 0, 0, 0, 0, 200, 51, 209, 198]))) := by
    rw [write_bytes_zero]
    rfl
  rw [hser, hI, parse_magic_sizes (by norm_num) (by norm_num) [128, 128]
      [0, 0, 0, 0, 0, 0, 0, 0, 200, 51, 209, 198] rfl,
    parseBlocks_128_128, write_bytes_zero]
  decide

/-! ### Serialize/parse round-trip (C2) -/

theorem memchr0_append_zero {d : List Nat} (t : List Nat) (h : 0 ∉ d) :
    memchr0 (d ++ 0 :: t) = some d.length := by
  induction d with
  | nil => simp [memchr0]
  | cons x d2 ih =>
    have hx : (x == 0) = false := by
      simp only [beq_eq_false_iff_ne, ne_eq]
      intro he
      exact h (by simp [he])
    have hd2 : 0 ∉ d2 := fun hm => h (by simp [hm])
    have ih2 := ih hd2
    simp only [memchr0] at ih2 ⊢
    simp only [List.cons_append, List.findIdx?_cons, hx, Bool.false_eq_true, if_false,
      List.findIdx?_start_succ, ih2, Option.map_some]
    simp

theorem parseBlocks_of_read_some_zero {body : List Nat} {offset : Nat} {body1 : List Nat}
    {i : Nat} (hne : body ≠ []) (hr2 : varint.read_bytes body = some (offset, body1))
    (hm : memchr0 body1 = some i) :
    parseBlocks body = Block.mk offset (body1.take (i + 1)) :: parseBlocks (body1.drop (i + 1)) := by
  rw [parseBlocks_of_read_some hne hr2, hm]

theorem parseBlocks_roundtrip : ∀ (bs : List Block),
    (∀ b ∈ bs, b.offset < 2 ^ 64 ∧ b.xor_data.getLast? = some 0 ∧ 0 ∉ b.xor_data.dropLast) →
    parseBlocks (blocksBytes bs) = bs := by
  intro bs
  induction bs with
  | nil => intro h2; exact parseBlocks_nil
  | cons b rest ih =>
    intro h
    obtain ⟨hoff, hlast, hnz⟩ := h b (List.mem_cons_self _ _)
    have hne : b.xor_data ≠ [] := by
      intro he
      rw [he] at hlast
      simp at hlast
    have hg : b.xor_data.getLast hne = 0 := by
      have h2 := List.getLast?_eq_getLast b.xor_data hne
      rw [h2] at hlast
      exact Option.some.inj hlast
    have hxd : b.xor_data = b.xor_data.dropLast ++ [0] := by
      conv_lhs => rw [← List.dropLast_concat_getLast hne, hg]
    have hbb : blocksBytes (b :: rest)
        = varint.write_bytes b.offset
          ++ (b.xor_data.dropLast ++ (0 :: blocksBytes rest)) := by
      show blockBytes b ++ blocksBytes rest = _
      rw [blockBytes]
      conv_lhs => rw [hxd]
      simp [List.append_assoc]
    rw [hbb]
    have hne2 : varint.write_bytes b.offset
        ++ (b.xor_data.dropLast ++ (0 :: blocksBytes rest)) ≠ [] := by
      intro he
      exact varint.write_ne_nil b.offset (List.append_eq_nil.mp he).1
    rw [parseBlocks_of_read_some_zero hne2 (varint.read_write b.offset hoff _)
      (memchr0_append_zero _ hnz)]
    have htake : (b.xor_data.dropLast ++ (0 :: blocksBytes rest)).take
        (b.xor_data.dropLast.length + 1) = b.xor_data := by
      rw [List.take_append, List.take_cons_succ, List.take_zero, ← hxd]
    have hdrop : (b.xor_data.dropLast ++ (0 :: blocksBytes rest)).drop
        (b.xor_data.dropLast.length + 1) = blocksBytes rest := by
      rw [List.drop_append, List.drop_succ_cons, List.drop_zero]
    rw [htake, hdrop, ih (fun b2 hb2 => h b2 (List.mem_cons_of_mem _ hb2))]

/-- C2 (amended): serialize-then-parse reproduces an equal `Patch`, provided
the `Patch` is a representable Rust value (usize sizes and offsets, u32
checksums, made explicit as bounds here) and every block's `xor_data` is
zero-terminated with no embedded zero byte — the shape `Block`s are documented
to have and that `diff` and `parse` produce.  (Embedded or missing zero bytes
re-split the block stream on parsing; see the counterexample.) -/
theorem serialize_parse_roundtrip (p : Patch) (hss : p.src_size < 2 ^ 64)
    (hds : p.dst_size < 2 ^ 64) (hsc : p.src_checksum < 2 ^ 32) (hdc : p.dst_checksum < 2 ^ 32)
    (hwf : ∀ b ∈ p.blocks, b.offset < 2 ^ 64 ∧ b.xor_data.getLast? = some 0 ∧
      0 ∉ b.xor_data.dropLast) :
    Patch.parse p.serialize = .ok p := by
  obtain ⟨bs, ss, sc, ds, dc⟩ := p
  have hser : Patch.serialize ⟨bs, ss, sc, ds, dc⟩
      = MAGIC ++ (varint.write_bytes ss ++ (varint.write_bytes ds ++ (blocksBytes bs ++
          (u32_to_le sc ++ (u32_to_le dc ++ u32_to_le (Checksum.from_bytes
            (MAGIC ++ varint.write_bytes ss ++ varint.write_bytes ds ++ blocksBytes bs
              ++ u32_to_le sc ++ u32_to_le dc))))))) := by
    simp [Patch.serialize, List.append_assoc]
  rw [hser, parse_magic_sizes hss hds (blocksBytes bs)
    (u32_to_le sc ++ (u32_to_le dc ++ u32_to_le (Checksum.from_bytes
      (MAGIC ++ varint.write_bytes ss ++ varint.write_bytes ds ++ blocksBytes bs
        ++ u32_to_le sc ++ u32_to_le dc))))
    (by simp [u32_to_le])]
  have h2 : (u32_to_le sc ++ (u32_to_le dc ++ u32_to_le (Checksum.from_bytes
      (MAGIC ++ varint.write_bytes ss ++ varint.write_bytes ds ++ blocksBytes bs
        ++ u32_to_le sc ++ u32_to_le dc)))).drop 4
      = u32_to_le dc ++ u32_to_le (Checksum.from_bytes
          (MAGIC ++ varint.write_bytes ss ++ varint.write_bytes ds ++ blocksBytes bs
            ++ u32_to_le sc ++ u32_to_le dc)) := List.drop_left' rfl
  have h1 : (u32_to_le sc ++ (u32_to_le dc ++ u32_to_le (Checksum.from_bytes
      (MAGIC ++ varint.write_bytes ss ++ varint.write_bytes ds ++ blocksBytes bs
        ++ u32_to_le sc ++ u32_to_le dc)))).take 4 = u32_to_le sc := List.take_left' rfl
  have h3 : (u32_to_le dc ++ u32_to_le (Checksum.from_bytes
      (MAGIC ++ varint.write_bytes ss ++ varint.write_bytes ds ++ blocksBytes bs
        ++ u32_to_le sc ++ u32_to_le dc))).take 4 = u32_to_le dc := List.take_left' rfl
  have h4 : (u32_to_le dc ++ u32_to_le (Checksum.from_bytes
      (MAGIC ++ varint.write_bytes ss ++ varint.write_bytes ds ++ blocksBytes bs
        ++ u32_to_le sc ++ u32_to_le dc))).drop 4
      = u32_to_le (Checksum.from_bytes
          (MAGIC ++ varint.write_bytes ss ++ varint.write_bytes ds ++ blocksBytes bs
            ++ u32_to_le sc ++ u32_to_le dc)) := List.drop_left' rfl
  have hassoc : MAGIC ++ (varint.write_bytes ss ++ (varint.write_bytes ds ++ (blocksBytes bs ++
      (u32_to_le sc ++ (u32_to_le dc ++ u32_to_le (Checksum.from_bytes
        (MAGIC ++ varint.write_bytes ss ++ varint.write_bytes ds ++ blocksBytes bs
          ++ u32_to_le sc ++ u32_to_le dc)))))))
      = (MAGIC ++ varint.write_bytes ss ++ varint.write_bytes ds ++ blocksBytes bs
          ++ u32_to_le sc ++ u32_to_le dc) ++ u32_to_le (Checksum.from_bytes
            (MAGIC ++ varint.write_bytes ss ++ varint.write_bytes ds ++ blocksBytes bs
              ++ u32_to_le sc ++ u32_to_le dc)) := by
    simp [List.append_assoc]
  have hact : (MAGIC ++ (varint.write_bytes ss ++ (varint.write_bytes ds ++ (blocksBytes bs ++
      (u32_to_le sc ++ (u32_to_le dc ++ u32_to_le (Checksum.from_bytes
        (MAGIC ++ varint.write_bytes ss ++ varint.write_bytes ds ++ blocksBytes bs
          ++ u32_to_le sc ++ u32_to_le dc)))))))).take
      ((MAGIC ++ (varint.write_bytes ss ++ (varint.write_bytes ds ++ (blocksBytes bs ++
        (u32_to_le sc ++ (u32_to_le dc ++ u32_to_le (Checksum.from_bytes
          (MAGIC ++ varint.write_bytes ss ++ varint.write_bytes ds ++ blocksBytes bs
            ++ u32_to_le sc ++ u32_to_le dc)))))))).length - 4)
      = MAGIC ++ varint.write_bytes ss ++ varint.write_bytes ds ++ blocksBytes bs
          ++ u32_to_le sc ++ u32_to_le dc := by
    rw [hassoc, List.length_append]
    have hl4 : (u32_to_le (Checksum.from_bytes
        (MAGIC ++ varint.write_bytes ss ++ varint.write_bytes ds ++ blocksBytes bs
          ++ u32_to_le sc ++ u32_to_le dc))).length = 4 := rfl
    rw [hl4, Nat.add_sub_cancel]
    exact List.take_left _ _
  rw [hact, h2, h4, h1, h3]
  have h5 : (u32_to_le (Checksum.from_bytes
      (MAGIC ++ varint.write_bytes ss ++ varint.write_bytes ds ++ blocksBytes bs
        ++ u32_to_le sc ++ u32_to_le dc))).take 4
      = u32_to_le (Checksum.from_bytes
          (MAGIC ++ varint.write_bytes ss ++ varint.write_bytes ds ++ blocksBytes bs
            ++ u32_to_le sc ++ u32_to_le dc)) := rfl
  rw [h5, u32_roundtrip (from_bytes_lt _), u32_roundtrip hsc, u32_roundtrip hdc,
    parseBlocks_roundtrip bs hwf]
  simp

theorem serialize_parse_roundtrip_witness :
    (5 : Nat) < 2 ^ 64 ∧ (6 : Nat) < 2 ^ 64 ∧ (1 : Nat) < 2 ^ 32 ∧ (2 : Nat) < 2 ^ 32 ∧
    (∀ b ∈ ([⟨3, [7, 0]⟩] : List Block), b.offset < 2 ^ 64 ∧
      b.xor_data.getLast? = some 0 ∧ 0 ∉ b.xor_data.dropLast) ∧
    Patch.parse (Patch.serialize ⟨[⟨3, [7, 0]⟩], 5, 1, 6, 2⟩)
      = .ok ⟨[⟨3, [7, 0]⟩], 5, 1, 6, 2⟩ :=
  ⟨by norm_num, by norm_num, by norm_num, by norm_num, by decide,
    serialize_parse_roundtrip ⟨[⟨3, [7, 0]⟩], 5, 1, 6, 2⟩ (by norm_num) (by norm_num)
      (by norm_num) (by norm_num) (by decide)⟩

/-! ### Locality of varint reads and parse inversion (C9) -/

theorem varint.read_local : ∀ (l : List Nat) (cur sh v : Nat) (r : List Nat),
    varint.read_bytes_loop l cur sh = some (v, r) →
    ∃ pre, l = pre ++ r ∧
      ∀ ys, varint.read_bytes_loop (pre ++ ys) cur sh = some (v, ys) := by
  intro l
  induction l with
  | nil => intro cur sh v r h; simp [varint.read_bytes_loop] at h
  | cons c t ih =>
    intro cur sh v r h
    rw [varint.read_bytes_loop] at h
    split at h
    · cases hadd : varint.varint_add_shifted cur (c &&& 0x7f) sh with
      | none => rw [hadd] at h; simp at h
      | some v2 =>
        rw [hadd] at h
        simp only [Option.map, Option.some.injEq, Prod.mk.injEq] at h
        obtain ⟨rfl, rfl⟩ := h
        refine ⟨[c], rfl, fun ys => ?_⟩
        rw [List.cons_append, List.nil_append, varint.read_bytes_loop]
        rw [if_pos (by assumption), hadd]
        rfl
    · rename_i hc
      cases hadd : varint.varint_add_shifted cur (c ||| 0x80) sh with
      | none => rw [hadd] at h; simp at h
      | some v2 =>
        rw [hadd] at h
        simp only [] at h
        obtain ⟨pre, hpre, hrep⟩ := ih _ _ _ _ h
        refine ⟨c :: pre, by rw [List.cons_append, hpre], fun ys => ?_⟩
        rw [List.cons_append, varint.read_bytes_loop]
        rw [if_neg hc, hadd]
        exact hrep ys

theorem varint.read_local_top {l : List Nat} {v : Nat} {r : List Nat}
    (h : varint.read_bytes l = some (v, r)) :
    ∃ pre, l = pre ++ r ∧ ∀ ys, varint.read_bytes (pre ++ ys) = some (v, ys) := by
  obtain ⟨pre, hpre, hrep⟩ := varint.read_local l 0 0 v r h
  exact ⟨pre, hpre, fun ys => hrep ys⟩

theorem parse_ok_inversion {s : List Nat} {q : Patch} (hok : Patch.parse s = .ok q) :
    ∃ pre1 pre2 body cks,
      s = MAGIC ++ (pre1 ++ (pre2 ++ (body ++ cks))) ∧
      cks.length = 12 ∧
      (∀ ys, varint.read_bytes (pre1 ++ ys) = some (q.src_size, ys)) ∧
      (∀ ys, varint.read_bytes (pre2 ++ ys) = some (q.dst_size, ys)) ∧
      q.blocks = parseBlocks body ∧
      q.src_checksum = u32_from_le (cks.take 4) ∧
      q.dst_checksum = u32_from_le ((cks.drop 4).take 4) := by
  simp only [Patch.parse] at hok
  split at hok
  · simp at hok
  · rename_i hmag
    have hpref : MAGIC <+: s := by
      rw [← List.isPrefixOf_iff_prefix]
      revert hmag
      cases MAGIC.isPrefixOf s <;> simp
    obtain ⟨t, ht⟩ := hpref
    have hdrop : s.drop 4 = t := by
      rw [← ht]
      exact List.drop_left' rfl
    rw [hdrop] at hok
    split at hok
    · simp at hok
    · rename_i ss r1 h1
      split at hok
      · simp at hok
      · rename_i ds r2 h2
        split at hok
        · simp at hok
        · rename_i hlen
          split at hok
          · simp at hok
          · rename_i sc c1 hc1
            split at hok
            · simp at hok
            · rename_i dc c2 hc2
              split at hok
              · simp at hok
              · rename_i pc c3 hc3
                split at hok
                · simp at hok
                · rename_i hpc
                  have hq : q = ⟨parseBlocks (r2.take (r2.length - 12)), ss, sc, ds, dc⟩ :=
                    (Except.ok.inj hok).symm
                  obtain ⟨pre1, hpre1, hrep1⟩ := varint.read_local_top h1
                  obtain ⟨pre2, hpre2, hrep2⟩ := varint.read_local_top h2
                  have hr2split : r2 = r2.take (r2.length - 12) ++ r2.drop (r2.length - 12) :=
                    (List.take_append_drop _ _).symm
                  have hckslen : (r2.drop (r2.length - 12)).length = 12 := by
                    rw [List.length_drop]
                    omega
                  have hc1e : read_checksum (r2.drop (r2.length - 12))
                      = .ok (u32_from_le ((r2.drop (r2.length - 12)).take 4),
                          (r2.drop (r2.length - 12)).drop 4) :=
                    read_checksum_of_len (by omega)
                  rw [hc1e] at hc1
                  obtain ⟨hsc, hc1rest⟩ : u32_from_le ((r2.drop (r2.length - 12)).take 4) = sc
                      ∧ (r2.drop (r2.length - 12)).drop 4 = c1 := by
                    have := Except.ok.inj hc1
                    exact ⟨congrArg Prod.fst this, congrArg Prod.snd this⟩
                  have hc2e : read_checksum ((r2.drop (r2.length - 12)).drop 4)
                      = .ok (u32_from_le (((r2.drop (r2.length - 12)).drop 4).take 4),
                          ((r2.drop (r2.length - 12)).drop 4).drop 4) :=
                    read_checksum_of_len (by rw [List.length_drop]; omega)
                  subst hc1rest
                  have hdc : dc = u32_from_le (((r2.drop (r2.length - 12)).drop 4).take 4) := by
                    have h6 := hc2e.symm.trans hc2
                    have h7 := Except.ok.inj h6
                    exact (congrArg Prod.fst h7).symm
                  refine ⟨pre1, pre2, r2.take (r2.length - 12), r2.drop (r2.length - 12),
                    ?_, hckslen, ?_, ?_, ?_, ?_, ?_⟩
                  · rw [← ht, hpre1, hpre2, ← hr2split]
                  · rw [hq]
                    exact hrep1
                  · rw [hq]
                    exact hrep2
                  · rw [hq]
                  · rw [hq, hsc]
                  · rw [hq, hdc]

/-- C9: if `s` parses successfully to `q` and the CRC-32 over all of `s` except
its trailing 4 bytes is non-zero, then zeroing those trailing 4 bytes makes
`Patch::parse` fail with `PatchChecksumMismatch` carrying the fully parsed
patch `q` (equal to the original), the embedded (corrupted) checksum `0` as
`expected`, and the computed checksum — which differs from the corrupted
value — as `actual`. -/
theorem parse_zeroed_patch_checksum {s : List Nat} {q : Patch}
    (hok : Patch.parse s = .ok q)
    (hnz : Checksum.from_bytes (s.take (s.length - 4)) ≠ 0) :
    Patch.parse (s.take (s.length - 4) ++ [0, 0, 0, 0])
      = .error (.PatchChecksumMismatch q 0
          (Checksum.from_bytes (s.take (s.length - 4)))) := by
  obtain ⟨pre1, pre2, body, cks, hs, hcks, hrep1, hrep2, hqb, hqsc, hqdc⟩ :=
    parse_ok_inversion hok
  have hckt8 : (cks.take 8).length = 8 := by rw [List.length_take]; omega
  have hckd8 : (cks.drop 8).length = 4 := by rw [List.length_drop]; omega
  have hsA : s = (MAGIC ++ (pre1 ++ (pre2 ++ (body ++ cks.take 8)))) ++ cks.drop 8 := by
    conv_lhs => rw [hs, ← List.take_append_drop 8 cks]
    simp [List.append_assoc]
  have htake : s.take (s.length - 4) = MAGIC ++ (pre1 ++ (pre2 ++ (body ++ cks.take 8))) := by
    rw [hsA, List.length_append, hckd8, Nat.add_sub_cancel]
    exact List.take_left _ _
  have hC : s.take (s.length - 4) ++ [0, 0, 0, 0]
      = MAGIC ++ (pre1 ++ (pre2 ++ (body ++ (cks.take 8 ++ [0, 0, 0, 0])))) := by
    rw [htake]
    simp [List.append_assoc]
  rw [hC, parse_structured hrep1 hrep2 body (cks.take 8 ++ [0, 0, 0, 0])
    (by rw [List.length_append, hckt8]; rfl)]
  have e1 : (cks.take 8 ++ [0, 0, 0, 0]).take 4 = cks.take 4 := by
    rw [List.take_append_of_le_length (by omega), List.take_take]
    norm_num
  have e2t : (cks.take 8 ++ ([0, 0, 0, 0] : List Nat)).drop 4
      = (cks.take 8).drop 4 ++ [0, 0, 0, 0] :=
    List.drop_append_of_le_length (by omega)
  have e3 : ((cks.take 8 ++ [0, 0, 0, 0]).drop 4).take 4 = (cks.drop 4).take 4 := by
    rw [e2t, List.take_append_of_le_length (by rw [List.length_drop, hckt8]),
      List.take_of_length_le (by rw [List.length_drop, hckt8]), List.drop_take]
  have e4 : ((cks.take 8 ++ ([0, 0, 0, 0] : List Nat)).drop 4).drop 4 = [0, 0, 0, 0] := by
    rw [e2t]
    exact List.drop_left' (by rw [List.length_drop, hckt8])
  have hact : (MAGIC ++ (pre1 ++ (pre2 ++ (body ++ (cks.take 8 ++ [0, 0, 0, 0]))))).take
      ((MAGIC ++ (pre1 ++ (pre2 ++ (body ++ (cks.take 8 ++ [0, 0, 0, 0]))))).length - 4)
      = s.take (s.length - 4) := by
    have hA2 : MAGIC ++ (pre1 ++ (pre2 ++ (body ++ (cks.take 8 ++ [0, 0, 0, 0]))))
        = (MAGIC ++ (pre1 ++ (pre2 ++ (body ++ cks.take 8)))) ++ [0, 0, 0, 0] := by
      simp [List.append_assoc]
    rw [hA2, List.length_append]
    have h4 : (([0, 0, 0, 0] : List Nat)).length = 4 := rfl
    rw [h4, Nat.add_sub_cancel, List.take_left, htake]
  rw [hact, e4, e1, e3]
  have hzero : u32_from_le (([0, 0, 0, 0] : List Nat).take 4) = 0 := rfl
  rw [hzero, if_pos hnz, ← hqb, ← hqsc, ← hqdc]

set_option maxRecDepth 40000 in
theorem parse_zeroed_patch_checksum_aux :
    Patch.parse [85, 80, 83, 49, 128, 128, 0, 0, 0, 0, 0, 0, 0, 0, 40, 254, 200, 89]
      = .ok ⟨[], 0, 0, 0, 0⟩ := by
  have hI : ([85, 80, 83, 49, 128, 128, 0, 0, 0, 0, 0, 0, 0, 0, 40, 254, 200, 89] : List Nat)
      = MAGIC ++ (varint.write_bytes 0 ++ (varint.write_bytes 0
        ++ ([] ++ [0, 0, 0, 0, 0, 0, 0, 0, 40, 254, 200, 89]))) := by
    rw [write_bytes_zero]
    rfl
  rw [hI, parse_magic_sizes (by norm_num) (by norm_num) []
      [0, 0, 0, 0, 0, 0, 0, 0, 40, 254, 200, 89] rfl,
    parseBlocks_nil, write_bytes_zero]
  decide

set_option maxRecDepth 40000 in
theorem parse_zeroed_patch_checksum_witness :
    Patch.parse [85, 80, 83, 49, 128, 128, 0, 0, 0, 0, 0, 0, 0, 0, 40, 254, 200, 89]
      = .ok ⟨[], 0, 0, 0, 0⟩ ∧
    Checksum.from_bytes
      (([85, 80, 83, 49, 128, 128, 0, 0, 0, 0, 0, 0, 0, 0, 40, 254, 200, 89] : List Nat).take
        (([85, 80, 83, 49, 128, 128, 0, 0, 0, 0, 0, 0, 0, 0,
            40, 254, 200, 89] : List Nat).length - 4)) ≠ 0 ∧
    Patch.parse
      (([85, 80, 83, 49, 128, 128, 0, 0, 0, 0, 0, 0, 0, 0, 40, 254, 200, 89] : List Nat).take
        (([85, 80, 83, 49, 128, 128, 0, 0, 0, 0, 0, 0, 0, 0,
            40, 254, 200, 89] : List Nat).length - 4) ++ [0, 0, 0, 0])
      = .error (.PatchChecksumMismatch ⟨[], 0, 0, 0, 0⟩ 0
          (Checksum.from_bytes
            (([85, 80, 83, 49, 128, 128, 0, 0, 0, 0, 0, 0, 0, 0,
                40, 254, 200, 89] : List Nat).take
              (([85, 80, 83, 49, 128, 128, 0, 0, 0, 0, 0, 0, 0, 0,
                  40, 254, 200, 89] : List Nat).length - 4)))) :=
  ⟨parse_zeroed_patch_checksum_aux, by decide,
    parse_zeroed_patch_checksum parse_zeroed_patch_checksum_aux (by decide)⟩

/-! ### Patch application (C3, C4) -/

theorem xorInto_length (buf xd : List Nat) : (xorInto buf xd).length = buf.length := by
  simp only [xorInto, List.length_append, List.length_zipWith, List.length_drop]
  omega

theorem applyBlocks_length : ∀ (bs : List Block) (buf : List Nat),
    (applyBlocks bs buf).length = buf.length := by
  intro bs
  induction bs with
  | nil => intro buf; rfl
  | cons b rest ih =>
    intro buf
    simp only [applyBlocks]
    split
    · rfl
    · rename_i hoff
      split
      · rename_i hxd
        rw [List.length_append, List.length_take, xorInto_length, List.length_drop]
        omega
      · rename_i hxd
        rw [List.length_append, List.length_append, List.length_take, List.length_take,
          ih, List.length_drop, xorInto_length, List.length_drop]
        rw [xorInto_length, List.length_drop] at hxd
        omega

theorem patchOutput_length (p : Patch) (d : PatchDirection) (input : List Nat)
    (h : min (d.metadata p).output_size (d.metadata p).input_size ≤ input.length) :
    (patchOutput p d input).length = (d.metadata p).output_size := by
  simp only [patchOutput]
  rw [applyBlocks_length, List.length_append, List.length_take, List.length_replicate]
  omega

theorem check_errors_cases (output : List Nat) (errors : List UpsPatchError) :
    (errors = [] ∧ UpsPatchErrors.check_errors output errors = .ok output) ∨
    (errors ≠ [] ∧ ∃ e, UpsPatchErrors.check_errors output errors = .error e ∧
      e.output = output ∧ (e.fst_error :: e.errors).Perm errors) := by
  unfold UpsPatchErrors.check_errors
  cases hl : errors.getLast? with
  | none =>
    left
    exact ⟨List.getLast?_eq_none_iff.mp hl, rfl⟩
  | some fst =>
    right
    have hne : errors ≠ [] := by
      intro he
      rw [he] at hl
      simp at hl
    refine ⟨hne, ⟨output, fst, errors.dropLast⟩, rfl, rfl, ?_⟩
    have hsplit : errors = errors.dropLast ++ [fst] := by
      have h2 := List.dropLast_concat_getLast hne
      have h3 := List.getLast?_eq_getLast errors hne
      rw [h3] at hl
      rw [Option.some.inj hl] at h2
      exact h2.symm
    conv_rhs => rw [hsplit]
    exact (List.perm_append_singleton _ _).symm

theorem patch_eq_check (p : Patch) (d : PatchDirection) (input : List Nat)
    (h : min (d.metadata p).output_size (d.metadata p).input_size ≤ input.length) :
    p.patch d input = some (UpsPatchErrors.check_errors (patchOutput p d input)
      (expectedErrors p d input)) := by
  have hnot : ¬ (input.length < min (d.metadata p).output_size (d.metadata p).input_size) := by
    omega
  by_cases h1 : (d.metadata p).input_size = input.length <;>
    by_cases h2 : (d.metadata p).input_checksum = Checksum.from_bytes input <;>
      by_cases h3 : (d.metadata p).output_checksum
          = Checksum.from_bytes (patchOutput p d input) <;>
        simp [Patch.patch, patchOutput, expectedErrors, MetadataMismatch.size,
          MetadataMismatch.checksum, h1, h2, h3, hnot, List.drop_replicate] at h3 ⊢ <;>
        simp [h3]

theorem expectedErrors_ne_nil_of_size {p : Patch} {d : PatchDirection} {input : List Nat}
    (hne : input.length ≠ (d.metadata p).input_size) : expectedErrors p d input ≠ [] := by
  simp only [expectedErrors]
  rw [if_neg (fun he => hne he.symm)]
  simp

/-- C3 (amended): whenever the input buffer has at least
`min(input_size, output_size)` bytes, `Patch::patch` returns a value (it
panics otherwise, see the counterexample): the buffer carried by the result —
in the `Ok` as well as in the `Err` — is exactly the blocks applied to the
zero-filled `output_size` buffer seeded with `min(input_size, output_size)`
input bytes, it has length `output_size`, and a mismatched input length is
recorded as a size-mismatch error in the returned `Err`. -/
theorem patch_total_of_enough_input (p : Patch) (d : PatchDirection) (input : List Nat)
    (h : min (d.metadata p).output_size (d.metadata p).input_size ≤ input.length) :
    ∃ r, p.patch d input = some r ∧
      (∀ o, r = .ok o → o = patchOutput p d input) ∧
      (∀ e, r = .error e → e.output = patchOutput p d input) ∧
      (patchOutput p d input).length = (d.metadata p).output_size ∧
      (input.length ≠ (d.metadata p).input_size →
        ∃ e, r = .error e ∧
          d.input_metadata_error (.Size (d.metadata p).input_size input.length)
            ∈ e.fst_error :: e.errors) := by
  refine ⟨_, patch_eq_check p d input h, ?_⟩
  rcases check_errors_cases (patchOutput p d input) (expectedErrors p d input) with
    ⟨hE, hok⟩ | ⟨hEne, e, herr, hout, hperm⟩
  · rw [hok]
    refine ⟨fun o ho => (Except.ok.inj ho).symm, fun e he => absurd he (by simp),
      patchOutput_length p d input h, fun hsz => absurd hE (expectedErrors_ne_nil_of_size hsz)⟩
  · rw [herr]
    refine ⟨fun o ho => absurd ho (by simp), fun e2 he2 => ?_,
      patchOutput_length p d input h, fun hsz => ⟨e, rfl, ?_⟩⟩
    · rw [← Except.error.inj he2]
      exact hout
    · rw [hperm.mem_iff]
      simp only [expectedErrors]
      rw [if_neg (fun he => hsz he.symm)]
      simp

theorem patch_total_of_enough_input_witness :
    min ((PatchDirection.Apply.metadata ⟨[], 1, 0, 1, 0⟩).output_size)
        ((PatchDirection.Apply.metadata ⟨[], 1, 0, 1, 0⟩).input_size) ≤ ([0] : List Nat).length ∧
    (∃ r, (⟨[], 1, 0, 1, 0⟩ : Patch).patch .Apply [0] = some r ∧
      (∀ o, r = .ok o → o = patchOutput ⟨[], 1, 0, 1, 0⟩ .Apply [0]) ∧
      (∀ e, r = .error e → e.output = patchOutput ⟨[], 1, 0, 1, 0⟩ .Apply [0]) ∧
      (patchOutput ⟨[], 1, 0, 1, 0⟩ .Apply [0]).length =
        (PatchDirection.Apply.metadata ⟨[], 1, 0, 1, 0⟩).output_size ∧
      (([0] : List Nat).length ≠ (PatchDirection.Apply.metadata ⟨[], 1, 0, 1, 0⟩).input_size →
        ∃ e, r = .error e ∧
          PatchDirection.Apply.input_metadata_error
              (.Size (PatchDirection.Apply.metadata ⟨[], 1, 0, 1, 0⟩).input_size
                ([0] : List Nat).length)
            ∈ e.fst_error :: e.errors)) :=
  ⟨by decide, patch_total_of_enough_input ⟨[], 1, 0, 1, 0⟩ .Apply [0] (by decide)⟩

/-- C4 (amended): with at least `min(input_size, output_size)` input bytes the
three validations are all evaluated; `patch` returns `Ok(output)` exactly when
none fails, and otherwise `Err` carrying the same fully computed output buffer
together with every failing validation (as a multiset: `fst_error` plus the
`errors` set is a permutation of the failing-validation list). -/
theorem patch_reports_all_failing_validations (p : Patch) (d : PatchDirection) (input : List Nat)
    (h : min (d.metadata p).output_size (d.metadata p).input_size ≤ input.length) :
    (expectedErrors p d input = [] →
      p.patch d input = some (.ok (patchOutput p d input))) ∧
    (expectedErrors p d input ≠ [] → ∃ e, p.patch d input = some (.error e) ∧
      e.output = patchOutput p d input ∧
      (e.fst_error :: e.errors).Perm (expectedErrors p d input)) := by
  rcases check_errors_cases (patchOutput p d input) (expectedErrors p d input) with
    ⟨hE, hok⟩ | ⟨hEne, e, herr, hout, hperm⟩
  · exact ⟨fun _ => by rw [patch_eq_check p d input h, hok], fun hne => absurd hE hne⟩
  · exact ⟨fun hE => absurd hE hEne,
      fun _ => ⟨e, by rw [patch_eq_check p d input h, herr], hout, hperm⟩⟩

theorem patch_reports_all_failing_validations_witness :
    min ((PatchDirection.Apply.metadata ⟨[], 0, 0, 0, 0⟩).output_size)
        ((PatchDirection.Apply.metadata ⟨[], 0, 0, 0, 0⟩).input_size) ≤ ([] : List Nat).length ∧
    ((expectedErrors ⟨[], 0, 0, 0, 0⟩ .Apply [] = [] →
      (⟨[], 0, 0, 0, 0⟩ : Patch).patch .Apply [] =
        some (.ok (patchOutput ⟨[], 0, 0, 0, 0⟩ .Apply []))) ∧
    (expectedErrors ⟨[], 0, 0, 0, 0⟩ .Apply [] ≠ [] →
      ∃ e, (⟨[], 0, 0, 0, 0⟩ : Patch).patch .Apply [] = some (.error e) ∧
        e.output = patchOutput ⟨[], 0, 0, 0, 0⟩ .Apply [] ∧
        (e.fst_error :: e.errors).Perm (expectedErrors ⟨[], 0, 0, 0, 0⟩ .Apply []))) :=
  ⟨by decide, patch_reports_all_failing_validations ⟨[], 0, 0, 0, 0⟩ .Apply [] (by decide)⟩

theorem modifyLast_eq_nil_iff (f : Block → Block) (l : List Block) :
    modifyLast f l = [] ↔ l = [] := by
  cases l with
  | nil => simp [modifyLast]
  | cons b t =>
    cases t with
    | nil => simp [modifyLast]
    | cons b2 r => simp [modifyLast]

theorem prefixBlocks_fst_eq_nil_iff (src dst : List Nat) (rs : List (Nat × Nat)) (pe : Nat) :
    (prefixBlocks src dst rs pe).1 = [] ↔ rs = [] := by
  cases rs <;> simp [prefixBlocks]

theorem tailBlocks_eq_nil_iff (pending : List Nat) :
    tailBlocks pending = [] ↔ ∀ x ∈ pending, x = 0 := by
  constructor
  · intro h x hx
    cases hf : pending.findIdx? (fun y => y != 0) with
    | none =>
      have hfx := List.findIdx?_eq_none_iff.mp hf x hx
      simpa using hfx
    | some off => rw [tailBlocks_of_some hf] at h; cases h
  · intro h
    apply tailBlocks_of_none
    rw [List.findIdx?_eq_none_iff]
    intro x hx
    simpa using h x hx

theorem sliceDiffs_eq_nil_iff (idx : Nat) (a b : List Nat) :
    sliceDiffs idx a b = [] ↔ ∀ p ∈ List.zip a b, p.1 = p.2 := by
  constructor
  · intro h p hp
    cases hf : (List.zip a b).findIdx? (fun q => q.1 != q.2) with
    | none =>
      have hfp := List.findIdx?_eq_none_iff.mp hf p hp
      simpa using hfp
    | some k => rw [sliceDiffs_of_some hf] at h; cases h
  · intro h
    apply sliceDiffs_of_none
    rw [List.findIdx?_eq_none_iff]
    intro p hp
    simpa using h p hp

theorem diff_chain_nil {b1 : List Block} {pe minLen : Nat} {P : List Nat} {f : Block → Block}
    (h : (if pe = minLen + 1 then modifyLast f b1
          else if P.take ((memchr0 P).getD P.length) ≠ [] then
            b1 ++ [Block.mk (minLen - pe) (P.take ((memchr0 P).getD P.length) ++ [0])]
          else b1) ++ tailBlocks ((P.drop ((memchr0 P).getD P.length)).tail) = [])
    (hpe : b1 = [] → pe = 0) :
    b1 = [] ∧ ∀ x ∈ P, x = 0 := by
  rcases List.append_eq_nil.mp h with ⟨h2, htb⟩
  by_cases hc : pe = minLen + 1
  · rw [if_pos hc, modifyLast_eq_nil_iff] at h2
    have h0 := hpe h2
    exact absurd hc (by omega)
  · rw [if_neg hc] at h2
    by_cases hl : P.take ((memchr0 P).getD P.length) = []
    · rw [if_neg (fun hcon => hcon hl)] at h2
      refine ⟨h2, ?_⟩
      have htail : ∀ x ∈ (P.drop ((memchr0 P).getD P.length)).tail, x = 0 :=
        (tailBlocks_eq_nil_iff _).mp htb
      rcases List.take_eq_nil_iff.mp hl with hsp | hPnil
      · cases hm : memchr0 P with
        | none =>
          rw [hm, Option.getD_none] at hsp
          intro x hx
          rw [List.length_eq_zero.mp hsp] at hx
          cases hx
        | some i =>
          rw [hm, Option.getD_some] at hsp
          subst hsp
          rw [hm, Option.getD_some] at htail
          simp only [memchr0] at hm
          rw [List.findIdx?_eq_some_iff_getElem] at hm
          obtain ⟨hlt, hx0, -⟩ := hm
          cases P with
          | nil => simp at hlt
          | cons a t =>
            have ha : a = 0 := by simpa using hx0
            intro x hx
            rcases List.mem_cons.mp hx with rfl | hxt
            · exact ha
            · exact htail x (by simpa using hxt)
      · intro x hx
        rw [hPnil] at hx
        cases hx
    · rw [if_pos hl] at h2
      simp at h2

/-- C5 (amended): `Patch::diff(src, dst)` produces an empty block list iff the
two buffers agree at every position of their shared prefix and every byte of
the longer buffer past the shared length is zero.  (The claim said the block
list is empty iff `src = dst`; buffers differing only by a trailing run of
zero bytes, such as `diff [] [0]`, are a counterexample, see
`diff_blocks_empty_src_ne_dst`.) -/
theorem diff_blocks_empty_iff (src dst : List Nat) :
    (Patch.diff src dst).blocks = [] ↔
      (∀ p ∈ List.zip src dst, p.1 = p.2) ∧
      (∀ x ∈ (if src.length < dst.length then dst else src).drop (min src.length dst.length),
        x = 0) := by
  have hmin : (if src.length < dst.length then src.length else dst.length) =
      min src.length dst.length := by split <;> omega
  constructor
  · intro h
    simp only [Patch.diff] at h
    have hpe : (prefixBlocks src dst (sliceDiffs 0 src dst) 0).1 = [] →
        (prefixBlocks src dst (sliceDiffs 0 src dst) 0).2 = 0 := by
      intro hb
      rw [prefixBlocks_fst_eq_nil_iff] at hb
      rw [hb]
      rfl
    have hcont : (prefixBlocks src dst (sliceDiffs 0 src dst) 0).1 = [] ∧
        (∀ x ∈ (if src.length < dst.length then dst else src).drop
          (if src.length < dst.length then src.length else dst.length), x = 0) →
        (∀ p ∈ List.zip src dst, p.1 = p.2) ∧
        (∀ x ∈ (if src.length < dst.length then dst else src).drop
          (min src.length dst.length), x = 0) := by
      rintro ⟨hb1, hP⟩
      rw [prefixBlocks_fst_eq_nil_iff, sliceDiffs_eq_nil_iff] at hb1
      rw [hmin] at hP
      exact ⟨hb1, hP⟩
    split at h
    · split at h
      · rw [modifyLast_eq_nil_iff] at h
        exact hcont (diff_chain_nil h hpe)
      · exact hcont (diff_chain_nil h hpe)
    · exact hcont (diff_chain_nil h hpe)
  · rintro ⟨hz, hP⟩
    have hsd : sliceDiffs 0 src dst = [] := (sliceDiffs_eq_nil_iff 0 src dst).mpr hz
    rw [← hmin] at hP
    have h01 : ¬((0 : Nat) = (if src.length < dst.length then src.length
        else dst.length) + 1) := by omega
    cases hP0 : (if src.length < dst.length then dst else src).drop
        (if src.length < dst.length then src.length else dst.length) with
    | nil =>
      have ht : tailBlocks ([] : List Nat) = [] := tailBlocks_of_none rfl
      simp [Patch.diff, hsd, prefixBlocks, hP0, memchr0, ht, h01, List.findIdx?_nil]
    | cons a t =>
      rw [hP0] at hP
      have ha : a = 0 := hP a (List.mem_cons_self a t)
      have htb : tailBlocks t = [] := (tailBlocks_eq_nil_iff t).mpr
        (fun x hx => hP x (List.mem_cons_of_mem a hx))
      subst ha
      simp [Patch.diff, hsd, prefixBlocks, hP0, memchr0, List.findIdx?_cons, htb, h01]
